import Mathlib

/-!
Verification of the paginated query engine and change-data-capture (CDC)
aggregator of the `quickbooks` Go client library.

The embedding models, faithfully to the Go source:

* `findEmployees` — the count-then-page list-all fetch
  (`FindEmployees` in `changed_data_capture_entities.go`; the same loop is
  repeated verbatim for every entity type, so the record type is a type
  parameter here).  The Go code reuses a single response struct `resp`
  across the count request and all page requests, and `encoding/json`
  leaves a struct field untouched when its key is absent from the JSON;
  `JsonArrField`/`JsonNumField` and `unmarshalInto` embed exactly that
  merge semantics.
* `getChangedEntities` — the CDC decoder with its dispatch registry,
  metadata-key skipping, unknown-key rejection, and the
  one-entity-type-per-element check.
* `maybeDeletedUnmarshalJSON` — the live-vs-tombstone tagged decode of
  `MaybeDeleted[T].UnmarshalJSON`.
* `dateUnmarshalJSON` — the two-format timestamp decode of
  `Date.UnmarshalJSON` with its long-format renderer `Date.String`.

Timestamps inside CDC records are carried as their literal strings (the Go
`time.Time` value is opaque to all claims about the CDC aggregation), and
per-entity record schemas are out of scope (the Go generic instantiates
`MaybeDeleted[T]` per concrete entity struct; here the decoded entity is
the raw record itself, which is what every aggregation claim quantifies
over).
-/

namespace QBO

/-- Source constant `queryPageSize = 1000` (class_test.go). -/
def queryPageSize : Nat := 1000

/-- A query issued through `Client.query`.  The Go source builds SQL-like
strings carrying exactly these parameters; `renderQuery` below produces the
literal strings of the source. -/
inductive Query where
  | countEmployees
  | selectPage (startPosition maxResults : Nat)
deriving DecidableEq, Repr

/-- The literal query strings built by `FindEmployees` via `strconv.Itoa`. -/
def renderQuery : Query → String
  | .countEmployees => "SELECT COUNT(*) FROM Employee"
  | .selectPage s m =>
      "SELECT * FROM Employee ORDERBY Id STARTPOSITION " ++ toString s ++
        " MAXRESULTS " ++ toString m

/-- State of the JSON-decoded slice field `QueryResponse.Employees` of the
reused Go response struct: `none` is a nil slice, `some xs` a non-nil slice
(possibly empty). -/
inductive JsonArrField (E : Type) where
  | absent
  | null
  | arr (xs : List E)
deriving DecidableEq

/-- A JSON integer field of a page response: either absent from the JSON
object or present with a value.  (`encoding/json` leaves an `int` field
unchanged when the key is absent.) -/
inductive JsonNumField where
  | absent
  | num (n : Nat)
deriving DecidableEq

/-- One server response to a `Client.query` call, as it affects the two
fields of the Go response struct that `FindEmployees` reads. -/
structure ServerResp (E : Type) where
  employees : JsonArrField E
  totalCount : JsonNumField
deriving DecidableEq

/-- The two fields of the reused Go struct
`resp.QueryResponse.{Employees, TotalCount}`.  `employees = none` models a
nil slice. -/
structure QueryRespState (E : Type) where
  employees : Option (List E)
  totalCount : Nat
deriving DecidableEq

/-- `encoding/json` semantics for the `Employees []Employee` field: an
absent key leaves the old value, JSON `null` sets the slice to nil, a JSON
array (even empty) sets a non-nil slice. -/
def updateEmployees {E : Type} (old : Option (List E)) : JsonArrField E → Option (List E)
  | .absent => old
  | .null => none
  | .arr xs => some xs

/-- `encoding/json` semantics for the `TotalCount int` field: an absent key
leaves the old value. -/
def updateTotalCount (old : Nat) : JsonNumField → Nat
  | .absent => old
  | .num n => n

/-- One `c.query(q, &resp)` call: unmarshal the server response into the
reused struct. -/
def unmarshalInto {E : Type} (st : QueryRespState E) (r : ServerResp E) : QueryRespState E :=
  ⟨updateEmployees st.employees r.employees, updateTotalCount st.totalCount r.totalCount⟩

/-- The page loop of `FindEmployees`
(`for i := 0; i < resp.QueryResponse.TotalCount; i += queryPageSize`).
The loop bound is re-read from the mutable struct each iteration, so an
adversarial server that keeps growing `totalCount` makes the Go loop run
unboundedly; `fuel` bounds the number of iterations the embedding will
take, and is consumed only when the Go loop would take an iteration.
Returns the call outcome together with the list of page queries issued. -/
def findLoop {E : Type} (server : Query → ServerResp E) :
    Nat → QueryRespState E → Nat → List E → Except String (List E) × List Query
  | 0, st, i, acc =>
    if i < st.totalCount then (.error "page loop exceeded fuel", [])
    else (.ok acc, [])
  | fuel + 1, st, i, acc =>
    if i < st.totalCount then
      let q := Query.selectPage (i + 1) queryPageSize
      let st' := unmarshalInto st (server q)
      match st'.employees with
      | none => (.error "no employees could be found", [q])
      | some page =>
        let r := findLoop server fuel st' (i + queryPageSize) (acc ++ page)
        (r.1, q :: r.2)
    else (.ok acc, [])

/-- `FindEmployees`: issue the count query into the zero-valued struct,
fail on a zero total, otherwise run the page loop.  The second component is
the full list of queries issued (count first). -/
def findEmployees {E : Type} (server : Query → ServerResp E) (fuel : Nat) :
    Except String (List E) × List Query :=
  let st := unmarshalInto ⟨none, 0⟩ (server .countEmployees)
  if st.totalCount = 0 then
    (.error "no employees could be found", [.countEmployees])
  else
    let r := findLoop server fuel st 0 []
    (r.1, .countEmployees :: r.2)

/-- A server holding the ordered record list `recs` (ascending-id server
order): the count query reports `recs.length` and carries no record array;
a page query `STARTPOSITION s MAXRESULTS m` serves records `s-1 … s-1+m-1`
and carries no `totalCount` (the wire format has `totalCount` only on the
count response). -/
def goodServer {E : Type} (recs : List E) : Query → ServerResp E
  | .countEmployees => ⟨.absent, .num recs.length⟩
  | .selectPage s m => ⟨.arr ((recs.drop (s - 1)).take m), .absent⟩

/-- The sequence of page queries the loop issues from offset `i` with a
fixed total `N`. -/
def pageTrace (N : Nat) (i : Nat) : List Query :=
  if i < N then
    Query.selectPage (i + 1) queryPageSize :: pageTrace N (i + queryPageSize)
  else []
termination_by N - i
decreasing_by simp only [queryPageSize]; omega

theorem findLoop_goodServer {E : Type} (recs : List E) :
    ∀ (fuel i : Nat) (st : QueryRespState E) (acc : List E),
      st.totalCount = recs.length → recs.length ≤ i + fuel →
      findLoop (goodServer recs) fuel st i acc =
        (.ok (acc ++ recs.drop i), pageTrace recs.length i) := by
  intro fuel
  induction fuel with
  | zero =>
    intro i st acc hTC hf
    rw [findLoop, pageTrace, hTC, if_neg (by omega), if_neg (by omega),
      List.drop_eq_nil_of_le (by omega), List.append_nil]
  | succ fuel ih =>
    intro i st acc hTC hf
    rw [findLoop, pageTrace, hTC]
    by_cases h : i < recs.length
    · rw [if_pos h, if_pos h]
      simp only [goodServer, unmarshalInto, updateEmployees, updateTotalCount,
        Nat.add_sub_cancel, hTC]
      rw [ih (i + queryPageSize) ⟨some ((recs.drop i).take queryPageSize), recs.length⟩
        (acc ++ (recs.drop i).take queryPageSize) rfl (by simp only [queryPageSize] at *; omega)]
      have hsplit : (acc ++ (recs.drop i).take queryPageSize) ++ recs.drop (i + queryPageSize) =
          acc ++ recs.drop i := by
        rw [List.append_assoc]
        have hdd : recs.drop (i + queryPageSize) = (recs.drop i).drop queryPageSize := by
          rw [List.drop_drop, Nat.add_comm]
        rw [hdd, List.take_append_drop]
      rw [hsplit]
    · rw [if_neg h, if_neg h, List.drop_eq_nil_of_le (by omega), List.append_nil]

theorem pageTrace_eq_map :
    ∀ (m N k : Nat), (N + queryPageSize - 1) / queryPageSize - k ≤ m →
      pageTrace N (k * queryPageSize) =
        (List.range' k ((N + queryPageSize - 1) / queryPageSize - k)).map
          (fun j => Query.selectPage (j * queryPageSize + 1) queryPageSize) := by
  intro m
  induction m with
  | zero =>
    intro N k h
    have h0 : (N + queryPageSize - 1) / queryPageSize - k = 0 := Nat.le_zero.mp h
    rw [h0, pageTrace, if_neg (by simp only [queryPageSize] at *; omega), List.range'_zero,
      List.map_nil]
  | succ m ih =>
    intro N k h
    by_cases hlt : k * queryPageSize < N
    · rw [pageTrace, if_pos hlt]
      have hk : (N + queryPageSize - 1) / queryPageSize - k =
          ((N + queryPageSize - 1) / queryPageSize - (k + 1)) + 1 := by
        simp only [queryPageSize] at *; omega
      rw [hk, List.range'_succ, List.map_cons]
      have hstep : k * queryPageSize + queryPageSize = (k + 1) * queryPageSize := by ring
      rw [hstep, ih N (k + 1) (by simp only [queryPageSize] at *; omega)]
    · rw [pageTrace, if_neg hlt]
      have h0 : (N + queryPageSize - 1) / queryPageSize - k = 0 := by
        simp only [queryPageSize] at *; omega
      rw [h0, List.range'_zero, List.map_nil]

/-- C1: with a server holding `N > 0` records in ascending-id order and a
fixed page size of 1000, `FindEmployees` issues exactly one count request
followed by `⌈N / 1000⌉` page requests, the `k`-th carrying
`STARTPOSITION = k * 1000 + 1` and `MAXRESULTS = 1000`, and returns
exactly the server's `N` records in server order (no duplicates, no
gaps). -/
theorem c1_pagination_complete {E : Type} (recs : List E) (fuel : Nat)
    (hpos : 0 < recs.length) (hfuel : recs.length ≤ fuel) :
    findEmployees (goodServer recs) fuel =
      (.ok recs,
        .countEmployees ::
          (List.range ((recs.length + queryPageSize - 1) / queryPageSize)).map
            (fun k => Query.selectPage (k * queryPageSize + 1) queryPageSize)) ∧
    (findEmployees (goodServer recs) fuel).2.map renderQuery =
      "SELECT COUNT(*) FROM Employee" ::
        (List.range ((recs.length + queryPageSize - 1) / queryPageSize)).map
          (fun k => "SELECT * FROM Employee ORDERBY Id STARTPOSITION " ++
            toString (k * queryPageSize + 1) ++ " MAXRESULTS " ++ toString queryPageSize) := by
  have hmain : findEmployees (goodServer recs) fuel =
      (.ok recs,
        .countEmployees ::
          (List.range ((recs.length + queryPageSize - 1) / queryPageSize)).map
            (fun k => Query.selectPage (k * queryPageSize + 1) queryPageSize)) := by
    rw [findEmployees]
    simp only [goodServer, unmarshalInto, updateEmployees, updateTotalCount]
    rw [if_neg (by omega)]
    rw [findLoop_goodServer recs fuel 0 ⟨none, recs.length⟩ [] rfl (by omega)]
    rw [List.drop_zero, List.nil_append]
    have h0 : (0 : Nat) = 0 * queryPageSize := by ring
    rw [h0, pageTrace_eq_map ((recs.length + queryPageSize - 1) / queryPageSize)
      recs.length 0 (by simp), Nat.sub_zero, ← List.range_eq_range']
  refine ⟨hmain, ?_⟩
  have hfun : (renderQuery ∘ fun k => Query.selectPage (k * queryPageSize + 1) queryPageSize) =
      fun k => "SELECT * FROM Employee ORDERBY Id STARTPOSITION " ++
        toString (k * queryPageSize + 1) ++ " MAXRESULTS " ++ toString queryPageSize := by
    funext k; rfl
  rw [hmain, List.map_cons, List.map_map, hfun]
  rfl

/-- C1 witness: a server with 2 records and fuel 2 satisfies the
hypotheses; one count request plus one page request are issued and both
records come back in order. -/
theorem c1_pagination_complete_witness :
    0 < ([10, 20] : List Nat).length ∧ ([10, 20] : List Nat).length ≤ 2 ∧
    findEmployees (goodServer [10, 20]) 2 =
      (.ok [10, 20], [.countEmployees, .selectPage 1 1000]) := by
  refine ⟨by decide, by decide, ?_⟩
  rw [(c1_pagination_complete [10, 20] 2 (by decide) (by decide)).1]
  rfl

/-- C4: if the count request reports a total of 0 (or carries no
`totalCount` at all, leaving the zero-valued field), `FindEmployees` fails
with the not-found error and issues no page request: the only request in
the trace is the count query. -/
theorem c4_zero_total_not_found {E : Type} (server : Query → ServerResp E) (fuel : Nat)
    (h : updateTotalCount 0 (server .countEmployees).totalCount = 0) :
    findEmployees server fuel = (.error "no employees could be found", [.countEmployees]) := by
  simp only [findEmployees, unmarshalInto]
  rw [if_pos h]

/-- A server that reports a zero total on the count query. -/
def zeroServer : Query → ServerResp Nat :=
  fun _ => ⟨.absent, .num 0⟩

/-- C4 witness: concrete zero-total server. -/
theorem c4_zero_total_not_found_witness :
    findEmployees zeroServer 5 = (.error "no employees could be found", [.countEmployees]) :=
  c4_zero_total_not_found zeroServer 5 rfl

/-- A server reporting one record on the count query but serving an
empty (present, non-nil) collection on every page. -/
def c5Server : Query → ServerResp Nat
  | .countEmployees => ⟨.absent, .num 1⟩
  | .selectPage _ _ => ⟨.arr [], .absent⟩

/-- C5 counterexample: a page response with a present-but-empty decoded
collection does NOT fail the call.  With a count of 1 and an empty page,
`FindEmployees` returns success with zero records instead of an error,
because the Go code only checks the slice against nil and an empty JSON
array decodes to a non-nil empty slice. -/
theorem c5_counterexample :
    findEmployees c5Server 1 = (.ok [], [.countEmployees, .selectPage 1 1000]) ∧
    ∀ e : String, (findEmployees c5Server 1).1 ≠ .error e := by
  refine ⟨rfl, fun e h => ?_⟩
  exact Except.noConfusion h

/-- C5 corrected: a page response fails the call exactly when the decoded
collection field is nil after unmarshalling — an explicit JSON `null`, or
an absent key while the field is still nil from the previous response.  A
present (possibly empty) collection is accepted: its records (zero of them
for an empty array; the previous page's records again when the key is
absent after a successful page) are appended and the loop continues,
termination still being driven solely by the count. -/
theorem c5_nil_collection_check {E : Type} (server : Query → ServerResp E) (fuel : Nat)
    (st : QueryRespState E) (i : Nat) (acc : List E) (hlt : i < st.totalCount) :
    (updateEmployees st.employees (server (.selectPage (i + 1) queryPageSize)).employees = none →
      findLoop server (fuel + 1) st i acc =
        (.error "no employees could be found", [.selectPage (i + 1) queryPageSize])) ∧
    (∀ page,
      updateEmployees st.employees (server (.selectPage (i + 1) queryPageSize)).employees =
        some page →
      findLoop server (fuel + 1) st i acc =
        ((findLoop server fuel (unmarshalInto st (server (.selectPage (i + 1) queryPageSize)))
            (i + queryPageSize) (acc ++ page)).1,
          .selectPage (i + 1) queryPageSize ::
            (findLoop server fuel (unmarshalInto st (server (.selectPage (i + 1) queryPageSize)))
              (i + queryPageSize) (acc ++ page)).2)) := by
  constructor
  · intro hnone
    simp only [findLoop, unmarshalInto]
    rw [if_pos hlt, hnone]
  · intro page hpage
    simp only [findLoop, unmarshalInto]
    rw [if_pos hlt, hpage]

/-- C5 corrected witness: with the empty-page server, the loop accepts the
empty page and continues with an unchanged accumulator. -/
theorem c5_nil_collection_check_witness :
    findLoop c5Server 1 ⟨none, 1⟩ 0 [] =
      ((findLoop c5Server 0 ⟨some [], 1⟩ (0 + queryPageSize) ([] ++ [])).1,
        .selectPage (0 + 1) queryPageSize ::
          (findLoop c5Server 0 ⟨some [], 1⟩ (0 + queryPageSize) ([] ++ [])).2) :=
  (c5_nil_collection_check c5Server 0 ⟨none, 1⟩ 0 [] (by decide)).2 [] rfl

/-- Reference loop using one fixed total `N` for every iteration (what the
spec describes): the loop bound cannot be changed by page responses.  It
still threads the decoded collection field, whose stale value matters for
the nil check. -/
def fixedLoop {E : Type} (server : Query → ServerResp E) (N : Nat) :
    Option (List E) → Nat → List E → Except String (List E) × List Query
  | emp, i, acc =>
    if i < N then
      let q := Query.selectPage (i + 1) queryPageSize
      match updateEmployees emp (server q).employees with
      | none => (.error "no employees could be found", [q])
      | some page =>
        let r := fixedLoop server N (some page) (i + queryPageSize) (acc ++ page)
        (r.1, q :: r.2)
    else (.ok acc, [])
termination_by _emp i _acc => N - i
decreasing_by simp only [queryPageSize]; omega

/-- A server whose count reports 1001 records but whose page responses
carry `totalCount = 1`: the reused response struct overwrites the loop
bound. -/
def c8Server : Query → ServerResp Nat
  | .countEmployees => ⟨.absent, .num 1001⟩
  | .selectPage _ _ => ⟨.arr [42], .num 1⟩

/-- C8 counterexample: with a count of 1001 the claim dictates
`⌈1001/1000⌉ = 2` page requests, but a first page response carrying
`totalCount = 1` replaces the loop bound (the Go code re-reads
`resp.QueryResponse.TotalCount`, which `json.Unmarshal` overwrites when
the key is present), so only one page request is issued. -/
theorem c8_counterexample :
    findEmployees c8Server 3 = (.ok [42], [.countEmployees, .selectPage 1 1000]) ∧
    (1001 + queryPageSize - 1) / queryPageSize = 2 :=
  ⟨rfl, rfl⟩

/-- C8 corrected: provided no page response carries a `totalCount` key
(which the wire format guarantees: `totalCount` is present only on the
count response), the loop bound is the single count-derived total at every
iteration — the loop behaves exactly like the reference loop with the
fixed total.  If a page response does carry `totalCount`, it silently
replaces the bound (see the counterexample). -/
theorem c8_total_fixed_without_page_totalcount {E : Type} (server : Query → ServerResp E)
    (hpages : ∀ s m, (server (.selectPage s m)).totalCount = .absent) :
    ∀ (fuel : Nat) (st : QueryRespState E) (i : Nat) (acc : List E),
      st.totalCount ≤ i + fuel →
      findLoop server fuel st i acc = fixedLoop server st.totalCount st.employees i acc := by
  intro fuel
  induction fuel with
  | zero =>
    intro st i acc hf
    rw [findLoop, fixedLoop, if_neg (by omega), if_neg (by omega)]
  | succ fuel ih =>
    intro st i acc hf
    rw [findLoop, fixedLoop]
    by_cases h : i < st.totalCount
    · rw [if_pos h, if_pos h]
      simp only [unmarshalInto, hpages, updateTotalCount]
      cases hcase : updateEmployees st.employees
          (server (.selectPage (i + 1) queryPageSize)).employees with
      | none => rfl
      | some page =>
        simp only []
        rw [ih ⟨some page, st.totalCount⟩ (i + queryPageSize) (acc ++ page)
          (by simp only [queryPageSize]; omega)]
    · rw [if_neg h, if_neg h]

/-- A server whose page responses never carry `totalCount`. -/
def absentTotalServer : Query → ServerResp Nat
  | .countEmployees => ⟨.absent, .num 1⟩
  | .selectPage _ _ => ⟨.arr [7], .absent⟩

/-- C8 corrected witness: concrete totalCount-free server. -/
theorem c8_total_fixed_witness :
    findLoop absentTotalServer 1 ⟨none, 1⟩ 0 [] = fixedLoop absentTotalServer 1 none 0 [] :=
  c8_total_fixed_without_page_totalcount absentTotalServer (fun s m => rfl) 1 ⟨none, 1⟩ 0 []
    (by decide)

/-- A raw per-record JSON object as the CDC decoder sees it: the `Id`
field, the `status` field (absent, or present with a string value), and
`MetaData.LastUpdatedTime` carried as its literal timestamp string (the
`time.Time` value is opaque to every claim about the tagged decode and
the aggregation). -/
structure RawRecord where
  idField : Option String
  statusField : Option String
  lastUpdatedTime : Option String
deriving DecidableEq

/-- Go `DeletedEntity`: `ID`, `Status`, and `MetaData.LastUpdatedTime`.
A missing JSON key leaves the Go zero value: `""` for the strings, the
zero time (modelled as `none`) for the timestamp. -/
structure DeletedEntity where
  id : String
  status : String
  lastUpdatedTime : Option String
deriving DecidableEq

/-- Go `MaybeDeleted[T]`: both pointers start nil. -/
structure MaybeDeleted (T : Type) where
  deleted : Option DeletedEntity
  entity : Option T
deriving DecidableEq

/-- Decoding a raw record as a `DeletedEntity`
(`json.Unmarshal(data, m.Deleted)`). -/
def decodeDeletedEntity (r : RawRecord) : DeletedEntity :=
  ⟨r.idField.getD "", r.statusField.getD "", r.lastUpdatedTime⟩

/-- `MaybeDeleted[T].UnmarshalJSON`: peek at the `status` field; if it is
the literal `"deleted"` populate `Deleted` (leaving `Entity` nil),
otherwise decode the full record as `T` and populate `Entity` (leaving
`Deleted` nil).  `decodeT` is the concrete entity type's decoder. -/
def maybeDeletedUnmarshalJSON {T : Type} (decodeT : RawRecord → Except String T)
    (r : RawRecord) : Except String (MaybeDeleted T) :=
  if r.statusField = some "deleted" then
    .ok ⟨some (decodeDeletedEntity r), none⟩
  else
    match decodeT r with
    | .error e => .error e
    | .ok t => .ok ⟨none, some t⟩

/-- C3: the tagged decode discriminates on `status = "deleted"`.  A
tombstone record decodes with `Deleted` populated by the record's Id,
status and LastUpdatedTime and `Entity` nil; a record whose status field
is absent or different decodes with `Entity` holding the fully decoded
record and `Deleted` nil; exactly one variant is populated in every
successfully decoded instance. -/
theorem c3_tombstone_discrimination {T : Type} (decodeT : RawRecord → Except String T)
    (r : RawRecord) :
    (r.statusField = some "deleted" →
      maybeDeletedUnmarshalJSON decodeT r =
        .ok ⟨some ⟨r.idField.getD "", "deleted", r.lastUpdatedTime⟩, none⟩) ∧
    (r.statusField ≠ some "deleted" → ∀ t, decodeT r = .ok t →
      maybeDeletedUnmarshalJSON decodeT r = .ok ⟨none, some t⟩) ∧
    (∀ m, maybeDeletedUnmarshalJSON decodeT r = .ok m →
      (m.deleted.isSome ↔ m.entity.isNone)) := by
  refine ⟨fun hdel => ?_, fun hlive t ht => ?_, fun m hm => ?_⟩
  · rw [maybeDeletedUnmarshalJSON, if_pos hdel, decodeDeletedEntity, hdel]
    rfl
  · rw [maybeDeletedUnmarshalJSON, if_neg hlive, ht]
  · rw [maybeDeletedUnmarshalJSON] at hm
    by_cases hdel : r.statusField = some "deleted"
    · rw [if_pos hdel] at hm
      cases hm
      simp
    · rw [if_neg hdel] at hm
      cases ht : decodeT r with
      | error e => rw [ht] at hm; cases hm
      | ok t => rw [ht] at hm; cases hm; simp

/-- The tombstone fixture of property P3. -/
def tombstone99 : RawRecord :=
  ⟨some "99", some "deleted", some "2026-02-01T10:00:00-08:00"⟩

/-- C3 witness: the P3 fixture record with status `"deleted"` decodes to
the populated-`Deleted` variant, and a status-free record decodes to the
populated-`Entity` variant. -/
theorem c3_tombstone_discrimination_witness :
    maybeDeletedUnmarshalJSON (fun r => .ok r) tombstone99 =
      .ok ⟨some ⟨"99", "deleted", some "2026-02-01T10:00:00-08:00"⟩, none⟩ ∧
    maybeDeletedUnmarshalJSON (fun r => .ok r) ⟨some "48", none, none⟩ =
      .ok ⟨none, some ⟨some "48", none, none⟩⟩ :=
  ⟨(c3_tombstone_discrimination (fun r => .ok r) tombstone99).1 rfl,
    (c3_tombstone_discrimination (fun r => .ok r) ⟨some "48", none, none⟩).2.1
      (by decide) ⟨some "48", none, none⟩ rfl⟩

/-- The JSON value under one key of a CDC `QueryResponse` element: an
array of raw records (an entity bucket) or a number (pagination
metadata). -/
inductive CDCVal where
  | arr (rs : List RawRecord)
  | num (n : Int)
deriving DecidableEq

/-- One raw CDC `QueryResponse` element: a JSON object, decoded by Go into
`map[string]json.RawMessage` and iterated.  The model fixes the list order
as the iteration order (Go's map iteration order is unspecified; every
property proved here is either order-independent or stated at the point
where the order is explicit). -/
abbrev QRElem : Type := List (String × CDCVal)

/-- The fifteen entity types of the static dispatch registry
(`buildDispatch`). -/
inductive EntityKind where
  | account | attachable | bill | classKind | companyInfo | creditMemo | customer
  | customerType | deposit | employee | estimate | invoice | item | payment | vendor
deriving DecidableEq

/-- The registry key of each supported entity type, in the order the
source's `buildDispatch` map literal lists them. -/
def dispatchKeys : List (String × EntityKind) :=
  [("Account", .account), ("Attachable", .attachable), ("Bill", .bill),
   ("Class", .classKind), ("CompanyInfo", .companyInfo), ("CreditMemo", .creditMemo),
   ("Customer", .customer), ("CustomerType", .customerType), ("Deposit", .deposit),
   ("Employee", .employee), ("Estimate", .estimate), ("Invoice", .invoice),
   ("Item", .item), ("Payment", .payment), ("Vendor", .vendor)]

/-- Registry key of a kind. -/
def entityKey : EntityKind → String
  | .account => "Account"
  | .attachable => "Attachable"
  | .bill => "Bill"
  | .classKind => "Class"
  | .companyInfo => "CompanyInfo"
  | .creditMemo => "CreditMemo"
  | .customer => "Customer"
  | .customerType => "CustomerType"
  | .deposit => "Deposit"
  | .employee => "Employee"
  | .estimate => "Estimate"
  | .invoice => "Invoice"
  | .item => "Item"
  | .payment => "Payment"
  | .vendor => "Vendor"

/-- Registry lookup (`dispatch[key]`). -/
def kindOfKey (s : String) : Option EntityKind :=
  (dispatchKeys.find? (fun p => p.1 = s)).map Prod.snd

/-- `CDCResponse`: changed entities aggregated by type.  The Go fields are
slices of `MaybeDeleted[ConcreteType]`; the decoded entity here is the raw
record itself (entity schemas are opaque plain data). -/
structure CDCResponse where
  accounts : List (MaybeDeleted RawRecord)
  attachables : List (MaybeDeleted RawRecord)
  bills : List (MaybeDeleted RawRecord)
  classes : List (MaybeDeleted RawRecord)
  companyInfos : List (MaybeDeleted RawRecord)
  creditMemos : List (MaybeDeleted RawRecord)
  customers : List (MaybeDeleted RawRecord)
  customerTypes : List (MaybeDeleted RawRecord)
  deposits : List (MaybeDeleted RawRecord)
  employees : List (MaybeDeleted RawRecord)
  estimates : List (MaybeDeleted RawRecord)
  invoices : List (MaybeDeleted RawRecord)
  items : List (MaybeDeleted RawRecord)
  payments : List (MaybeDeleted RawRecord)
  vendors : List (MaybeDeleted RawRecord)
deriving DecidableEq

/-- `result := &CDCResponse{}`: every sequence starts empty (a nil Go
slice is the empty sequence). -/
def emptyCDCResponse : CDCResponse :=
  ⟨[], [], [], [], [], [], [], [], [], [], [], [], [], [], []⟩

/-- The sequence a `CDCResponse` exposes for one entity kind. -/
def CDCResponse.get (res : CDCResponse) : EntityKind → List (MaybeDeleted RawRecord)
  | .account => res.accounts
  | .attachable => res.attachables
  | .bill => res.bills
  | .classKind => res.classes
  | .companyInfo => res.companyInfos
  | .creditMemo => res.creditMemos
  | .customer => res.customers
  | .customerType => res.customerTypes
  | .deposit => res.deposits
  | .employee => res.employees
  | .estimate => res.estimates
  | .invoice => res.invoices
  | .item => res.items
  | .payment => res.payments
  | .vendor => res.vendors

/-- `unmarshalEntities` appending onto the matching output collection
(`*dest = append(*dest, entities...)` through the dispatch closure). -/
def appendKind (res : CDCResponse) : EntityKind → List (MaybeDeleted RawRecord) → CDCResponse
  | .account, xs => { res with accounts := res.accounts ++ xs }
  | .attachable, xs => { res with attachables := res.attachables ++ xs }
  | .bill, xs => { res with bills := res.bills ++ xs }
  | .classKind, xs => { res with classes := res.classes ++ xs }
  | .companyInfo, xs => { res with companyInfos := res.companyInfos ++ xs }
  | .creditMemo, xs => { res with creditMemos := res.creditMemos ++ xs }
  | .customer, xs => { res with customers := res.customers ++ xs }
  | .customerType, xs => { res with customerTypes := res.customerTypes ++ xs }
  | .deposit, xs => { res with deposits := res.deposits ++ xs }
  | .employee, xs => { res with employees := res.employees ++ xs }
  | .estimate, xs => { res with estimates := res.estimates ++ xs }
  | .invoice, xs => { res with invoices := res.invoices ++ xs }
  | .item, xs => { res with items := res.items ++ xs }
  | .payment, xs => { res with payments := res.payments ++ xs }
  | .vendor, xs => { res with vendors := res.vendors ++ xs }

/-- The non-entity keys that may appear alongside entity data in a
`QueryResponse` element (`knownMetaKeys` in the source). -/
def knownMetaKeys : List String := ["startPosition", "maxResults", "totalCount"]

/-- Decoding the value under an entity key as `[]MaybeDeleted[T]`
(`unmarshalEntities`): a JSON array decodes record by record through the
tagged decode; anything else is a JSON structural mismatch. -/
def decodeRecords : CDCVal → Except String (List (MaybeDeleted RawRecord))
  | .arr rs => rs.mapM (maybeDeletedUnmarshalJSON (fun r => .ok r))
  | .num _ => .error "cannot unmarshal number into entity array"

/-- The key loop of `GetChangedEntities` over one element: skip metadata
keys, reject keys absent from the registry, decode and append entity
buckets, counting the matched entity keys. -/
def processKeys (res : CDCResponse) (matched : Nat) :
    List (String × CDCVal) → Except String (CDCResponse × Nat)
  | [] => .ok (res, matched)
  | (key, data) :: rest =>
    if key ∈ knownMetaKeys then processKeys res matched rest
    else
      match kindOfKey key with
      | none => .error ("unexpected entity type in CDC response: \"" ++ key ++ "\"")
      | some k =>
        match decodeRecords data with
        | .error e => .error ("failed to unmarshal \"" ++ key ++ "\": " ++ e)
        | .ok ents => processKeys (appendKind res k ents) (matched + 1) rest

/-- One `QueryResponse` element: run the key loop, then reject elements
that contained more than one entity type. -/
def processElem (res : CDCResponse) (qr : QRElem) : Except String CDCResponse :=
  match processKeys res 0 qr with
  | .error e => .error e
  | .ok (res', matched) =>
    if matched > 1 then
      .error ("CDC QueryResponse element contained " ++ toString matched ++
        " entity types, expected 1")
    else .ok res'

/-- The inner loop over the `QueryResponse` elements of one wrapper. -/
def processElems (res : CDCResponse) : List QRElem → Except String CDCResponse
  | [] => .ok res
  | qr :: rest =>
    match processElem res qr with
    | .error e => .error e
    | .ok res' => processElems res' rest

/-- The outer loop over the response wrappers of `raw.CDCResponse`. -/
def processWrappers (res : CDCResponse) : List (List QRElem) → Except String CDCResponse
  | [] => .ok res
  | w :: ws =>
    match processElems res w with
    | .error e => .error e
    | .ok res' => processWrappers res' ws

/-- `GetChangedEntities`, from the decoded raw response shape (the outer
list of response wrappers, each a list of `QueryResponse` elements)
onwards: aggregate every bucket into a fresh `CDCResponse`. -/
def getChangedEntities (raw : List (List QRElem)) : Except String CDCResponse :=
  processWrappers emptyCDCResponse raw

/-- The list a bucket value contributes when its decode succeeds. -/
def okRecords (v : CDCVal) : List (MaybeDeleted RawRecord) :=
  match decodeRecords v with
  | .ok l => l
  | .error _ => []

/-- The contribution of one element to one entity kind's sequence. -/
def elemSeq (k : EntityKind) (qr : QRElem) : List (MaybeDeleted RawRecord) :=
  (qr.map (fun e => if e.1 = entityKey k then okRecords e.2 else [])).flatten

/-- The concatenation, in server response order across every wrapper and
every element, of one entity kind's decoded records. -/
def concatKind (raw : List (List QRElem)) (k : EntityKind) : List (MaybeDeleted RawRecord) :=
  ((raw.flatten).map (elemSeq k)).flatten

theorem entityKey_not_meta (k : EntityKind) : entityKey k ∉ knownMetaKeys := by
  cases k <;> decide

theorem kindOfKey_entityKey (k : EntityKind) : kindOfKey (entityKey k) = some k := by
  cases k <;> rfl

theorem kindOfKey_eq_some (s : String) (k : EntityKind) (h : kindOfKey s = some k) :
    s = entityKey k := by
  rw [kindOfKey] at h
  cases hf : dispatchKeys.find? (fun p => p.1 = s) with
  | none => rw [hf] at h; cases h
  | some p =>
    rw [hf] at h
    have hps : p.1 = s := by
      have hb := List.find?_some hf
      simpa using hb
    have hpk : p.2 = k := Option.some.inj h
    have hmem : p ∈ dispatchKeys := List.mem_of_find?_eq_some hf
    have hkey : entityKey p.2 = p.1 := by
      have : ∀ q ∈ dispatchKeys, entityKey q.2 = q.1 := by decide
      exact this p hmem
    rw [← hps, ← hpk, hkey]

theorem entityKey_inj {a b : EntityKind} (h : entityKey a = entityKey b) : a = b := by
  have := congrArg kindOfKey h
  rw [kindOfKey_entityKey, kindOfKey_entityKey] at this
  exact Option.some.inj this

theorem emptyCDCResponse_get (k : EntityKind) : emptyCDCResponse.get k = [] := by
  cases k <;> rfl

theorem get_appendKind (res : CDCResponse) (k' : EntityKind)
    (xs : List (MaybeDeleted RawRecord)) (k : EntityKind) :
    (appendKind res k' xs).get k = if k' = k then res.get k ++ xs else res.get k := by
  cases k' <;> cases k <;> simp [appendKind, CDCResponse.get]

theorem elemSeq_cons (k : EntityKind) (key : String) (data : CDCVal) (rest : QRElem) :
    elemSeq k ((key, data) :: rest) =
      (if key = entityKey k then okRecords data else []) ++ elemSeq k rest := by
  simp [elemSeq]

theorem processKeys_get :
    ∀ (qr : QRElem) (res : CDCResponse) (m : Nat) (res' : CDCResponse) (m' : Nat),
      processKeys res m qr = .ok (res', m') →
      ∀ k, res'.get k = res.get k ++ elemSeq k qr := by
  intro qr
  induction qr with
  | nil =>
    intro res m res' m' h k
    simp only [processKeys, Except.ok.injEq, Prod.mk.injEq] at h
    obtain ⟨h1, h2⟩ := h
    subst h1
    simp [elemSeq]
  | cons e rest ih =>
    intro res m res' m' h k
    obtain ⟨key, data⟩ := e
    rw [processKeys] at h
    by_cases hmeta : key ∈ knownMetaKeys
    · rw [if_pos hmeta] at h
      rw [ih res m res' m' h k]
      have hne : key ≠ entityKey k := fun he => entityKey_not_meta k (he ▸ hmeta)
      rw [elemSeq_cons, if_neg hne, List.nil_append]
    · rw [if_neg hmeta] at h
      cases hk : kindOfKey key with
      | none => rw [hk] at h; cases h
      | some k0 =>
        rw [hk] at h
        cases hd : decodeRecords data with
        | error e0 => rw [hd] at h; cases h
        | ok ents =>
          rw [hd] at h
          rw [ih (appendKind res k0 ents) (m + 1) res' m' h k, get_appendKind]
          have hkey : key = entityKey k0 := kindOfKey_eq_some key k0 hk
          by_cases hkk : k0 = k
          · subst hkk
            rw [if_pos rfl, elemSeq_cons, if_pos hkey]
            rw [okRecords, hd, List.append_assoc]
          · rw [if_neg hkk, elemSeq_cons]
            have hne : key ≠ entityKey k := by
              rw [hkey]
              exact fun he => hkk (entityKey_inj he)
            rw [if_neg hne, List.nil_append]

theorem processElem_get (res : CDCResponse) (qr : QRElem) (res' : CDCResponse)
    (h : processElem res qr = .ok res') :
    ∀ k, res'.get k = res.get k ++ elemSeq k qr := by
  intro k
  rw [processElem] at h
  split at h
  · cases h
  · rename_i res'' m' heq
    split at h
    · cases h
    · cases h
      exact processKeys_get qr res 0 _ _ heq k

theorem processElems_get :
    ∀ (ws : List QRElem) (res : CDCResponse) (res' : CDCResponse),
      processElems res ws = .ok res' →
      ∀ k, res'.get k = res.get k ++ (ws.map (elemSeq k)).flatten := by
  intro ws
  induction ws with
  | nil =>
    intro res res' h k
    simp only [processElems, Except.ok.injEq] at h
    subst h
    simp
  | cons qr rest ih =>
    intro res res' h k
    rw [processElems] at h
    cases hq : processElem res qr with
    | error e => rw [hq] at h; cases h
    | ok res'' =>
      rw [hq] at h
      rw [ih res'' res' h k, processElem_get res qr res'' hq k]
      simp [List.append_assoc]

theorem processWrappers_get :
    ∀ (wraps : List (List QRElem)) (res : CDCResponse) (res' : CDCResponse),
      processWrappers res wraps = .ok res' →
      ∀ k, res'.get k = res.get k ++ ((wraps.flatten).map (elemSeq k)).flatten := by
  intro wraps
  induction wraps with
  | nil =>
    intro res res' h k
    simp only [processWrappers, Except.ok.injEq] at h
    subst h
    simp
  | cons w rest ih =>
    intro res res' h k
    rw [processWrappers] at h
    cases hw : processElems res w with
    | error e => rw [hw] at h; cases h
    | ok res'' =>
      rw [hw] at h
      rw [ih res'' res' h k, processElems_get w res res'' hw k]
      simp [List.append_assoc]

/-- C2: whenever `GetChangedEntities` succeeds, the sequence it exposes
for each supported entity type is exactly the concatenation — in server
response order, across every outer response wrapper and every
query-response element — of that type's decoded `MaybeDeleted` records;
in particular a type with no bucket anywhere in the response yields the
empty sequence (never null: the Go result struct starts with empty
slices). -/
theorem c2_cdc_aggregation (raw : List (List QRElem)) (res : CDCResponse)
    (h : getChangedEntities raw = .ok res) :
    ∀ k, res.get k = concatKind raw k := by
  intro k
  rw [getChangedEntities] at h
  rw [processWrappers_get raw emptyCDCResponse res h k, emptyCDCResponse_get,
    List.nil_append, concatKind]

/-- The CDC fixture: one wrapper with an Estimate element (one live, one
tombstone) and a Customer element (one live), both elements carrying
pagination metadata. -/
def cdcFixture : List (List QRElem) :=
  [[ [("Estimate", .arr [⟨some "48", none, some "2026-01-31T11:43:20-08:00"⟩, tombstone99]),
     ("startPosition", .num 1), ("maxResults", .num 2)],
    [("Customer", .arr [⟨some "13", none, some "2026-01-31T11:06:49-08:00"⟩]),
     ("startPosition", .num 1), ("maxResults", .num 1)] ]]

/-- The aggregate the fixture decodes to. -/
def cdcFixtureResult : CDCResponse :=
  { emptyCDCResponse with
    estimates := [⟨none, some ⟨some "48", none, some "2026-01-31T11:43:20-08:00"⟩⟩,
      ⟨some ⟨"99", "deleted", some "2026-02-01T10:00:00-08:00"⟩, none⟩],
    customers := [⟨none, some ⟨some "13", none, some "2026-01-31T11:06:49-08:00"⟩⟩] }

/-- C2 witness: on the fixture, the decode succeeds, and the Estimate and
Customer sequences (and the empty Invoice sequence) each equal the ordered
concatenation of their buckets. -/
theorem c2_cdc_aggregation_witness :
    getChangedEntities cdcFixture = .ok cdcFixtureResult ∧
      cdcFixtureResult.get .estimate = concatKind cdcFixture .estimate ∧
      cdcFixtureResult.get .customer = concatKind cdcFixture .customer ∧
      cdcFixtureResult.get .invoice = concatKind cdcFixture .invoice ∧
      cdcFixtureResult.get .invoice = [] :=
  ⟨rfl, c2_cdc_aggregation cdcFixture cdcFixtureResult rfl .estimate,
    c2_cdc_aggregation cdcFixture cdcFixtureResult rfl .customer,
    c2_cdc_aggregation cdcFixture cdcFixtureResult rfl .invoice, rfl⟩

theorem processKeys_error_of_unknown :
    ∀ (qr : QRElem) (key : String) (data : CDCVal), (key, data) ∈ qr →
      key ∉ knownMetaKeys → kindOfKey key = none →
      ∀ (res : CDCResponse) (m : Nat), ∃ msg, processKeys res m qr = .error msg := by
  intro qr
  induction qr with
  | nil =>
    intro key data hmem
    cases hmem
  | cons e rest ih =>
    intro key data hmem hm hk res m
    obtain ⟨k0, d0⟩ := e
    rw [processKeys]
    by_cases hmeta : k0 ∈ knownMetaKeys
    · rw [if_pos hmeta]
      cases hmem with
      | head => exact absurd hmeta hm
      | tail _ hmem' => exact ih key data hmem' hm hk res m
    · rw [if_neg hmeta]
      cases hkk : kindOfKey k0 with
      | none => exact ⟨_, rfl⟩
      | some kk =>
        cases hd : decodeRecords d0 with
        | error e0 => exact ⟨_, rfl⟩
        | ok ents =>
          cases hmem with
          | head => rw [hk] at hkk; cases hkk
          | tail _ hmem' => exact ih key data hmem' hm hk (appendKind res kk ents) (m + 1)

theorem processElem_error_of_keys (qr : QRElem)
    (hkeys : ∀ res m, ∃ msg, processKeys res m qr = .error msg) (res : CDCResponse) :
    ∃ msg, processElem res qr = .error msg := by
  obtain ⟨msg, hmsg⟩ := hkeys res 0
  exact ⟨msg, by rw [processElem, hmsg]⟩

theorem processElems_error_of_mem :
    ∀ (ws : List QRElem) (qr : QRElem), qr ∈ ws →
      (∀ res, ∃ msg, processElem res qr = .error msg) →
      ∀ res, ∃ msg, processElems res ws = .error msg := by
  intro ws
  induction ws with
  | nil =>
    intro qr hmem
    cases hmem
  | cons w rest ih =>
    intro qr hmem hqr res
    rw [processElems]
    cases hw : processElem res w with
    | error e => exact ⟨e, rfl⟩
    | ok res' =>
      cases hmem with
      | head =>
        obtain ⟨msg, hmsg⟩ := hqr res
        rw [hw] at hmsg
        cases hmsg
      | tail _ hmem' => exact ih qr hmem' hqr res'

theorem processWrappers_error_of_mem :
    ∀ (wraps : List (List QRElem)) (w : List QRElem), w ∈ wraps →
      (∀ res, ∃ msg, processElems res w = .error msg) →
      ∀ res, ∃ msg, processWrappers res wraps = .error msg := by
  intro wraps
  induction wraps with
  | nil =>
    intro w hmem
    cases hmem
  | cons w0 rest ih =>
    intro w hmem hw res
    rw [processWrappers]
    cases hw0 : processElems res w0 with
    | error e => exact ⟨e, rfl⟩
    | ok res' =>
      cases hmem with
      | head =>
        obtain ⟨msg, hmsg⟩ := hw res
        rw [hw0] at hmsg
        cases hmsg
      | tail _ hmem' => exact ih w hmem' hw res'

/-- C6: a query-response element containing a non-metadata key that is not
in the dispatch registry always fails the whole call (the unknown key is
never silently skipped), and the key loop's rejection error names the
offending key verbatim (`unexpected entity type in CDC response: %q`). -/
theorem c6_unknown_key_rejection :
    (∀ (raw : List (List QRElem)) (w : List QRElem) (qr : QRElem) (key : String) (data : CDCVal),
      w ∈ raw → qr ∈ w → (key, data) ∈ qr → key ∉ knownMetaKeys → kindOfKey key = none →
      ∃ msg, getChangedEntities raw = .error msg) ∧
    (∀ (res : CDCResponse) (m : Nat) (key : String) (data : CDCVal) (rest : QRElem),
      key ∉ knownMetaKeys → kindOfKey key = none →
      processKeys res m ((key, data) :: rest) =
        .error ("unexpected entity type in CDC response: \"" ++ key ++ "\"")) := by
  constructor
  · intro raw w qr key data hw hqr hmem hm hk
    exact processWrappers_error_of_mem raw w hw
      (processElems_error_of_mem w qr hqr
        (processElem_error_of_keys qr
          (processKeys_error_of_unknown qr key data hmem hm hk)))
      emptyCDCResponse
  · intro res m key data rest hm hk
    rw [processKeys, if_neg hm, hk]

/-- A CDC response whose single element carries the unregistered key
`"Foo"`. -/
def fooRaw : List (List QRElem) := [[[("Foo", CDCVal.num 1)]]]

/-- C6 witness: the `"Foo"` response fails, and the key loop error names
`"Foo"`. -/
theorem c6_unknown_key_rejection_witness :
    (∃ msg, getChangedEntities fooRaw = .error msg) ∧
    processKeys emptyCDCResponse 0 [("Foo", CDCVal.num 1)] =
      .error ("unexpected entity type in CDC response: \"Foo\"") :=
  ⟨c6_unknown_key_rejection.1 fooRaw [[("Foo", CDCVal.num 1)]] [("Foo", CDCVal.num 1)]
      "Foo" (CDCVal.num 1) (by decide) (by decide) (by decide) (by decide) (by decide),
    c6_unknown_key_rejection.2 emptyCDCResponse 0 "Foo" (CDCVal.num 1) [] (by decide) (by decide)⟩

/-- Count of the non-metadata keys of one element. -/
def nonMetaCount (qr : QRElem) : Nat :=
  (qr.filter (fun e => e.1 ∉ knownMetaKeys)).length

theorem processKeys_matched :
    ∀ (qr : QRElem) (res : CDCResponse) (m : Nat) (res' : CDCResponse) (m' : Nat),
      processKeys res m qr = .ok (res', m') → m' = m + nonMetaCount qr := by
  intro qr
  induction qr with
  | nil =>
    intro res m res' m' h
    simp only [processKeys, Except.ok.injEq, Prod.mk.injEq] at h
    obtain ⟨h1, h2⟩ := h
    simp [nonMetaCount, ← h2]
  | cons e rest ih =>
    intro res m res' m' h
    obtain ⟨key, data⟩ := e
    rw [processKeys] at h
    by_cases hmeta : key ∈ knownMetaKeys
    · rw [if_pos hmeta] at h
      rw [ih res m res' m' h]
      have hc : nonMetaCount ((key, data) :: rest) = nonMetaCount rest := by
        simp [nonMetaCount, List.filter, hmeta]
      rw [hc]
    · rw [if_neg hmeta] at h
      cases hk : kindOfKey key with
      | none => rw [hk] at h; cases h
      | some k0 =>
        rw [hk] at h
        cases hd : decodeRecords data with
        | error e0 => rw [hd] at h; cases h
        | ok ents =>
          rw [hd] at h
          rw [ih (appendKind res k0 ents) (m + 1) res' m' h]
          have hc : nonMetaCount ((key, data) :: rest) = nonMetaCount rest + 1 := by
            simp [nonMetaCount, List.filter, hmeta]
          rw [hc]
          omega

theorem processElem_error_of_two (qr : QRElem) (h2 : 2 ≤ nonMetaCount qr)
    (res : CDCResponse) : ∃ msg, processElem res qr = .error msg := by
  cases hpk : processKeys res 0 qr with
  | error e => exact ⟨e, by rw [processElem, hpk]⟩
  | ok pair =>
    obtain ⟨res', m'⟩ := pair
    have hm : m' = 0 + nonMetaCount qr := processKeys_matched qr res 0 res' m' hpk
    refine ⟨"CDC QueryResponse element contained " ++ toString m' ++
      " entity types, expected 1", ?_⟩
    rw [processElem, hpk]
    exact if_pos (by omega)

/-- C7: a query-response element with two or more non-metadata keys (a
JSON object, so the keys are pairwise distinct) always fails the whole
call — no aggregate is returned — and when the key loop itself completes,
the rejection is the `expected 1` protocol error counting the matched
entity types. -/
theorem c7_multi_type_rejection :
    (∀ (raw : List (List QRElem)) (w : List QRElem) (qr : QRElem),
      w ∈ raw → qr ∈ w → (qr.map Prod.fst).Nodup → 2 ≤ nonMetaCount qr →
      ∃ msg, getChangedEntities raw = .error msg) ∧
    (∀ (res res' : CDCResponse) (qr : QRElem) (n : Nat),
      processKeys res 0 qr = .ok (res', n) → 2 ≤ n →
      processElem res qr =
        .error ("CDC QueryResponse element contained " ++ toString n ++
          " entity types, expected 1")) := by
  constructor
  · intro raw w qr hw hqr hnd h2
    exact processWrappers_error_of_mem raw w hw
      (processElems_error_of_mem w qr hqr (processElem_error_of_two qr h2))
      emptyCDCResponse
  · intro res res' qr n hpk h2
    rw [processElem, hpk]
    exact if_pos (by omega)

/-- An element holding both an Estimate and a Customer bucket. -/
def twoKindsElem : QRElem := [("Estimate", CDCVal.arr []), ("Customer", CDCVal.arr [])]

/-- C7 witness: the two-bucket element fails the call, with the
`expected 1` error from the element check. -/
theorem c7_multi_type_rejection_witness :
    (∃ msg, getChangedEntities [[twoKindsElem]] = .error msg) ∧
    processElem emptyCDCResponse twoKindsElem =
      .error ("CDC QueryResponse element contained " ++ toString 2 ++
        " entity types, expected 1") :=
  ⟨c7_multi_type_rejection.1 [[twoKindsElem]] [twoKindsElem] twoKindsElem
      (by decide) (by decide) (by decide) (by decide),
    c7_multi_type_rejection.2 emptyCDCResponse emptyCDCResponse twoKindsElem 2 rfl (by decide)⟩

theorem processKeys_meta_skip (key : String) (hmeta : key ∈ knownMetaKeys) :
    ∀ (pre post : QRElem) (v : CDCVal) (res : CDCResponse) (m : Nat),
      processKeys res m (pre ++ (key, v) :: post) = processKeys res m (pre ++ post) := by
  intro pre
  induction pre with
  | nil =>
    intro post v res m
    simp only [List.nil_append]
    rw [processKeys, if_pos hmeta]
  | cons e rest ih =>
    intro post v res m
    obtain ⟨k0, d0⟩ := e
    simp only [List.cons_append]
    rw [processKeys, processKeys]
    by_cases hm0 : k0 ∈ knownMetaKeys
    · rw [if_pos hm0, if_pos hm0]
      exact ih post v res m
    · rw [if_neg hm0, if_neg hm0]
      cases hk : kindOfKey k0 with
      | none => rfl
      | some kk =>
        cases hd : decodeRecords d0 with
        | error e0 => rfl
        | ok ents => exact ih post v (appendKind res kk ents) (m + 1)

theorem processElem_meta_skip (key : String) (hmeta : key ∈ knownMetaKeys)
    (pre post : QRElem) (v : CDCVal) (res : CDCResponse) :
    processElem res (pre ++ (key, v) :: post) = processElem res (pre ++ post) := by
  rw [processElem, processElem, processKeys_meta_skip key hmeta pre post v res 0]

theorem processElems_congr (qr qr' : QRElem)
    (hqr : ∀ res, processElem res qr = processElem res qr') :
    ∀ (e1 e2 : List QRElem) (res : CDCResponse),
      processElems res (e1 ++ qr :: e2) = processElems res (e1 ++ qr' :: e2) := by
  intro e1
  induction e1 with
  | nil =>
    intro e2 res
    simp only [List.nil_append]
    rw [processElems, processElems, hqr res]
  | cons w rest ih =>
    intro e2 res
    simp only [List.cons_append]
    rw [processElems, processElems]
    cases hw : processElem res w with
    | error e => rfl
    | ok res' => exact ih e2 res'

theorem processWrappers_congr (w w' : List QRElem)
    (hw : ∀ res, processElems res w = processElems res w') :
    ∀ (w1 w2 : List (List QRElem)) (res : CDCResponse),
      processWrappers res (w1 ++ w :: w2) = processWrappers res (w1 ++ w' :: w2) := by
  intro w1
  induction w1 with
  | nil =>
    intro w2 res
    simp only [List.nil_append]
    rw [processWrappers, processWrappers, hw res]
  | cons w0 rest ih =>
    intro w2 res
    simp only [List.cons_append]
    rw [processWrappers, processWrappers]
    cases hw0 : processElems res w0 with
    | error e => rfl
    | ok res' => exact ih w2 res'

/-- C9: the pagination metadata keys are ignored by the CDC decoder —
deleting a metadata entry from any element, anywhere in the response,
leaves the whole call's outcome unchanged, so such entries are never
dispatched, never counted toward the one-entity-type limit, and never a
cause of failure. -/
theorem c9_meta_keys_ignored (key : String) (hmeta : key ∈ knownMetaKeys)
    (v : CDCVal) (w1 w2 : List (List QRElem)) (e1 e2 : List QRElem) (pre post : QRElem) :
    getChangedEntities (w1 ++ (e1 ++ (pre ++ (key, v) :: post) :: e2) :: w2) =
      getChangedEntities (w1 ++ (e1 ++ (pre ++ post) :: e2) :: w2) := by
  rw [getChangedEntities, getChangedEntities]
  exact processWrappers_congr (e1 ++ (pre ++ (key, v) :: post) :: e2)
    (e1 ++ (pre ++ post) :: e2)
    (fun res => processElems_congr (pre ++ (key, v) :: post) (pre ++ post)
      (fun res' => processElem_meta_skip key hmeta pre post v res') e1 e2 res)
    w1 w2 emptyCDCResponse

/-- C9 witness: dropping a `startPosition` entry from a one-element
response leaves the result unchanged. -/
theorem c9_meta_keys_ignored_witness :
    getChangedEntities [[[("startPosition", CDCVal.num 1), ("Estimate", CDCVal.arr [])]]] =
      getChangedEntities [[[("Estimate", CDCVal.arr [])]]] :=
  c9_meta_keys_ignored "startPosition" (by decide) (CDCVal.num 1) [] [] [] [] []
    [("Estimate", CDCVal.arr [])]

/-- A parsed timestamp: the components Go's `time.Parse` extracts from the
two accepted layouts, with the fixed zone offset in signed minutes. -/
structure DateTime where
  year : Nat
  month : Nat
  day : Nat
  hour : Nat
  minute : Nat
  second : Nat
  offsetMinutes : Int
deriving DecidableEq

/-- Value of one decimal digit character. -/
def digitVal (c : Char) : Option Nat :=
  if c.isDigit then some (c.toNat - 48) else none

/-- Two fixed digits. -/
def num2 (a b : Char) : Option Nat := do
  let x ← digitVal a
  let y ← digitVal b
  pure (10 * x + y)

/-- Four fixed digits. -/
def num4 (a b c d : Char) : Option Nat := do
  let x ← num2 a b
  let y ← num2 c d
  pure (100 * x + y)

/-- Leap years as Go's `time` package computes them. -/
def isLeapYear (y : Nat) : Bool :=
  y % 4 == 0 && (y % 100 != 0 || y % 400 == 0)

/-- Days in a month, as validated by Go's `time.Parse`. -/
def daysInMonth (y m : Nat) : Nat :=
  if m = 2 then (if isLeapYear y then 29 else 28)
  else if m = 4 ∨ m = 6 ∨ m = 9 ∨ m = 11 then 30
  else 31

/-- The range checks `time.Parse` performs on the extracted components. -/
def validDateTime (y mo d h mi s : Nat) : Bool :=
  decide (1 ≤ mo ∧ mo ≤ 12 ∧ 1 ≤ d ∧ d ≤ daysInMonth y mo ∧ h < 24 ∧ mi < 60 ∧ s < 60)

/-- `time.Parse` with the long layout `2006-01-02T15:04:05-07:00`
(the source constant `format`): fixed-width fields at fixed positions. -/
def parseLongChars : List Char → Option DateTime
  | [y1, y2, y3, y4, '-', m1, m2, '-', d1, d2, 'T', h1, h2, ':', n1, n2, ':',
     s1, s2, sg, o1, o2, ':', o3, o4] => do
    let y ← num4 y1 y2 y3 y4
    let mo ← num2 m1 m2
    let d ← num2 d1 d2
    let h ← num2 h1 h2
    let mi ← num2 n1 n2
    let s ← num2 s1 s2
    let oh ← num2 o1 o2
    let om ← num2 o3 o4
    if sg = '+' ∨ sg = '-' then
      if validDateTime y mo d h mi s then
        some ⟨y, mo, d, h, mi, s, (if sg = '-' then -1 else 1) * (oh * 60 + om)⟩
      else none
    else none
  | _ => none

/-- `time.Parse` with the short layout `2006-01-02` (the source constant
`secondFormat`): a bare date parses to midnight UTC. -/
def parseShortChars : List Char → Option DateTime
  | [y1, y2, y3, y4, '-', m1, m2, '-', d1, d2] => do
    let y ← num4 y1 y2 y3 y4
    let mo ← num2 m1 m2
    let d ← num2 d1 d2
    if validDateTime y mo d 0 0 0 then some ⟨y, mo, d, 0, 0, 0, 0⟩ else none
  | _ => none

/-- The quote stripping of `Date.UnmarshalJSON`
(`if b[0] == '"' && b[len(b)-1] == '"' { b = b[1 : len(b)-1] }`), on
inputs of length at least 2 (shorter inputs make the Go code index or
slice out of range). -/
def stripJSONQuotes (cs : List Char) : List Char :=
  if cs.head? = some '\"' ∧ cs.getLast? = some '\"' then (cs.drop 1).dropLast else cs

/-- `Date.UnmarshalJSON`: strip surrounding quotes, try the long format,
fall back to the short format on failure. -/
def dateUnmarshalJSON (b : String) : Except String DateTime :=
  let cs := stripJSONQuotes b.toList
  match parseLongChars cs with
  | some d => .ok d
  | none =>
    match parseShortChars cs with
    | some d => .ok d
    | none => .error "parsing time: cannot parse"

/-- Zero-padded two-digit rendering. -/
def pad2 (n : Nat) : String :=
  if n < 10 then "0" ++ toString n else toString n

/-- Zero-padded four-digit rendering. -/
def pad4 (n : Nat) : String :=
  if n < 10 then "000" ++ toString n
  else if n < 100 then "00" ++ toString n
  else if n < 1000 then "0" ++ toString n
  else toString n

/-- `Date.String`: render through the long layout
`2006-01-02T15:04:05-07:00` (UTC renders as `+00:00`). -/
def dateString (d : DateTime) : String :=
  pad4 d.year ++ "-" ++ pad2 d.month ++ "-" ++ pad2 d.day ++ "T" ++
    pad2 d.hour ++ ":" ++ pad2 d.minute ++ ":" ++ pad2 d.second ++
    (if d.offsetMinutes < 0 then "-" else "+") ++
    pad2 (d.offsetMinutes.natAbs / 60) ++ ":" ++ pad2 (d.offsetMinutes.natAbs % 60)

/-- C10: the timestamp decoder tries the long layout
`YYYY-MM-DDTHH:MM:SS±HH:MM` first and falls back to bare `YYYY-MM-DD`
(the third conjunct shows the long parse genuinely fails on the bare
date, so the fallback is exercised).  `"2014-11-06T15:37:25-08:00"`
parses and re-renders through the long format to exactly its original
form; `"2014-12-06"` parses to midnight UTC and re-renders through the
long format to that value's canonical long form
`"2014-12-06T00:00:00+00:00"`. -/
theorem c10_timestamp_roundtrip :
    (dateUnmarshalJSON "\"2014-11-06T15:37:25-08:00\"" =
        .ok ⟨2014, 11, 6, 15, 37, 25, -480⟩ ∧
      dateString ⟨2014, 11, 6, 15, 37, 25, -480⟩ = "2014-11-06T15:37:25-08:00") ∧
    (dateUnmarshalJSON "\"2014-12-06\"" = .ok ⟨2014, 12, 6, 0, 0, 0, 0⟩ ∧
      dateString ⟨2014, 12, 6, 0, 0, 0, 0⟩ = "2014-12-06T00:00:00+00:00") ∧
    parseLongChars "2014-12-06".toList = none :=
  ⟨⟨rfl, by decide⟩, ⟨rfl, by decide⟩, by decide⟩

end QBO
